import Mathlib

set_option maxRecDepth 100000

/-!
# Verification of the ZLP scheduler core (`zlp_scheduler.py`)

A shallow embedding of the scheduling core: half-open minute intervals,
the interval `merge`, the fixed 5-minute candidate-start scan, the labeled
conflict diagnostics, the record validator `add_section`, and the greedy
section selector from `main`.  Times are minutes-from-midnight (`Nat`);
intervals are half-open `(start, end)` pairs.
-/

namespace ZLP

/-- A half-open interval `[start, end)` in minutes. -/
abbrev Iv := Nat × Nat

-- ═════════════════════ constants (source lines 31-42) ════════════════════

/-- Source constant `DAY_LETTERS = "MTWRF"`. -/
def DAY_LETTERS : List Char := ['M', 'T', 'W', 'R', 'F']

/-- Source constant `GRID_START = 8*60` — start of the study-slot grid (08:00). -/
def GRID_START : Nat := 8 * 60

/-- Source constant `GRID_END = 16*60 + 10` — last candidate start (16:10). -/
def GRID_END : Nat := 16 * 60 + 10

/-- Source constant `BLOCK_LEN = 100` — length of a study window in minutes. -/
def BLOCK_LEN : Nat := 100

/-- Source constant `STEP_MIN = 5` — the candidate grid step. -/
def STEP_MIN : Nat := 5

/-- The candidate start times `range(GRID_START, GRID_END+1, STEP_MIN)`:
`480, 485, …, 970` (99 starts; `(GRID_END + 1 - GRID_START + STEP_MIN - 1) / STEP_MIN = 99`). -/
def gridStarts : List Nat :=
  List.range' GRID_START ((GRID_END + 1 - GRID_START + STEP_MIN - 1) / STEP_MIN) STEP_MIN

-- ═════════════════════ helpers (source lines 50-67) ══════════════════════

/-- Predicate `overlaps(a, b)` (lines 56-57): half-open intervals intersect
(`max(a[0],b[0]) < min(a[1],b[1])`, line 56-57). -/
def overlapsB (a b : Iv) : Bool := max a.1 b.1 < min a.2 b.2

/-- Python tuple order on `(start, end)` pairs, as used by `sorted(intvs)`. -/
def ivLE (a b : Iv) : Prop := a.1 < b.1 ∨ (a.1 = b.1 ∧ a.2 ≤ b.2)

instance : DecidableRel ivLE := fun a b => by
  unfold ivLE; infer_instance

/-- The fold inside `merge` (lines 62-66): `cur` is `merged[-1]`; an interval
starting after `cur`'s end is appended, otherwise it is absorbed into `cur`. -/
def mergeAux : Iv → List Iv → List Iv
  | cur, [] => [cur]
  | cur, (s, e) :: rest =>
    if cur.2 < s then cur :: mergeAux (s, e) rest
    else mergeAux (cur.1, max cur.2 e) rest

/-- Function `merge(intvs)` (lines 59-67): sort by tuple order, then fold overlapping or
touching intervals together. -/
def merge (intvs : List Iv) : List Iv :=
  match List.insertionSort ivLE intvs with
  | [] => []
  | x :: rest => mergeAux x rest

/-- The gap shape of a merged list: each interval ends strictly before the
next one starts (`merge` only appends when `s > merged[-1][1]`). -/
def gap (a b : Iv) : Prop := a.2 < b.1

instance : DecidableRel gap := fun a b => by
  unfold gap; infer_instance

/-- Scaled closed coverage: `x` (in half-minutes) lies inside `[2s, 2e]` for
some interval of the list.  Doubling separates touching intervals, so a
gap-shaped list is determined by its coverage. -/
def cover2 (L : List Iv) (x : Nat) : Prop := ∃ p ∈ L, 2 * p.1 ≤ x ∧ x ≤ 2 * p.2

/-- Well-formed intervals: start at most end.  Every interval the scheduler
builds is `(st, st + dur)`, so this holds throughout `main`. -/
def WfIvs (L : List Iv) : Prop := ∀ p ∈ L, p.1 ≤ p.2

instance : IsTotal Iv ivLE := ⟨fun a b => by unfold ivLE; omega⟩

instance : IsTrans Iv ivLE := ⟨fun a b c hab hbc => by unfold ivLE at *; omega⟩

-- ═════════════ the per-day scans (source lines 69-104) ═══════════════════

/-- The overlap count of the candidate block at `st` against a merged day list
(line 74): `sum(1 for iv in day if overlaps(blk, iv))`. -/
def mergedCount (day : List Iv) (st : Nat) : Nat :=
  day.countP (fun iv => overlapsB (st, st + BLOCK_LEN) iv)

/-- One iteration of the loop in `free_and_min_conflict` (lines 72-79).
`acc = (free, best, mincnt)`; `mincnt = none` models the initial `float('inf')`. -/
def scanStep (day : List Iv) (acc : List Iv × List Nat × Option Nat) (st : Nat) :
    List Iv × List Nat × Option Nat :=
  let blk : Iv := (st, st + BLOCK_LEN)
  let cnt := mergedCount day st
  let free := if cnt = 0 then acc.1 ++ [blk] else acc.1
  match acc.2.2 with
  | none => (free, [st], some cnt)
  | some m =>
    if cnt < m then (free, [st], some cnt)
    else if cnt = m then (free, acc.2.1 ++ [st], some m)
    else (free, acc.2.1, some m)

/-- Function `free_and_min_conflict(day)` (lines 69-80): free blocks, starts with the
fewest overlaps, and the minimum overlap count, over the fixed start grid. -/
def free_and_min_conflict (day : List Iv) : List Iv × List Nat × Option Nat :=
  gridStarts.foldl (scanStep day) ([], [], none)

/-- A labeled busy entry `(start, end, course code)`. -/
abbrev LIv := Nat × Nat × String

/-- Forget the course label of a labeled entry. -/
def unlabel (t : LIv) : Iv := (t.1, t.2.1)

/-- The overlap count against the unmerged labeled list (line 99):
`sum(1 for s,e,_ in day_labeled if overlaps((s,e), (st, st+BLOCK_LEN)))`. -/
def labeledCount (day_labeled : List LIv) (st : Nat) : Nat :=
  day_labeled.countP (fun t => overlapsB (t.1, t.2.1) (st, st + BLOCK_LEN))

/-- One iteration of the loop in `min_conflict_by_labels` (lines 98-103),
with the per-start count abstracted as `count`. -/
def scanMinStep (count : Nat → Nat) (acc : List Nat × Option Nat) (st : Nat) :
    List Nat × Option Nat :=
  let cnt := count st
  match acc.2 with
  | none => ([st], some cnt)
  | some m =>
    if cnt < m then ([st], some cnt)
    else if cnt = m then (acc.1 ++ [st], some m)
    else (acc.1, some m)

/-- Function `min_conflict_by_labels(day_labeled)` (lines 92-104): starts with the true
minimum number of conflicting classes on the unmerged labeled grid. -/
def min_conflict_by_labels (day_labeled : List LIv) : List Nat × Option Nat :=
  gridStarts.foldl (scanMinStep (labeledCount day_labeled)) ([], none)

/-- Function `offenders_for_start(st, day_labeled)` (lines 82-90): all labeled classes
overlapping the block at `st`, sorted by their own start time. -/
def offenders_for_start (st : Nat) (day_labeled : List LIv) : List (String × Nat × Nat) :=
  let hits := day_labeled.foldr
    (fun t acc => if overlapsB (t.1, t.2.1) (st, st + BLOCK_LEN) then (t.2.2, t.1, t.2.1) :: acc else acc) []
  List.insertionSort (fun a b : String × Nat × Nat => a.2.1 ≤ b.2.1) hits

-- ═════════════ validator / inserter (source lines 134-155) ═══════════════

/-- A raw five-field record `(subject, number, days, start, duration)`. -/
abbrev Rec := String × String × String × String × String

/-- A stored section tuple `(days, start-minute, duration, course code)`
(line 153), with the days string kept as its character list. -/
structure Sec where
  days : List Char
  start : Nat
  dur : Nat
  code : String
deriving DecidableEq

/-- The `sections` mapping: course code → sections in arrival order,
as an insertion-ordered association list (a Python dict). -/
abbrev SecMap := List (String × List Sec)

/-- Decimal value of a digit string (Python `int` on a digit-checked string). -/
def strToNat (s : String) : Nat :=
  s.data.foldl (fun n c => n * 10 + (c.toNat - '0'.toNat)) 0

/-- Helper `to_minutes(hhmm) = int(hhmm[:2])*60 + int(hhmm[3:])` (lines 50-51). -/
def to_minutes (hhmm : String) : Nat :=
  strToNat (String.mk (hhmm.data.take 2)) * 60 + strToNat (String.mk (hhmm.data.drop 3))

/-- Pattern `CRS_RE = ^[A-Z]{4}$` (line 39). -/
def crsRe (s : String) : Bool :=
  s.data.length = 4 && s.data.all (fun c => 'A' ≤ c && c ≤ 'Z')

/-- Pattern `NUM_RE` of three digits with an optional lab letter (line 40). -/
def numRe (s : String) : Bool :=
  match s.data with
  | [a, b, c] => a.isDigit && b.isDigit && c.isDigit
  | [a, b, c, l] => a.isDigit && b.isDigit && c.isDigit && (l = 'L' || l = 'l')
  | _ => false

/-- Pattern `TIME_RE` for 24-hour HH:MM times (line 41). -/
def timeRe (s : String) : Bool :=
  match s.data with
  | [h1, h2, c, m1, m2] =>
    c = ':' &&
    ((h1 = '2' && '0' ≤ h2 && h2 ≤ '3') || ((h1 = '1' || h1 = '0') && h2.isDigit)) &&
    ('0' ≤ m1 && m1 ≤ '5') && m2.isDigit
  | _ => false

/-- Pattern `DAYS_RE` of one or more weekday letters, case-insensitive (line 42). -/
def daysRe (s : String) : Bool :=
  !s.data.isEmpty &&
  s.data.all (fun c => c = 'M' || c = 'T' || c = 'W' || c = 'R' || c = 'F' ||
    c = 'm' || c = 't' || c = 'w' || c = 'r' || c = 'f')

/-- Check `dur.isdigit()` (line 147). -/
def isDigits (s : String) : Bool := !s.data.isEmpty && s.data.all Char.isDigit

/-- Update `sections.setdefault(code, []).append(sec)` (line 153) on the ordered map. -/
def insertSec (m : SecMap) (code : String) (sec : Sec) : SecMap :=
  match m with
  | [] => [(code, [sec])]
  | (c, l) :: rest => if c = code then (c, l ++ [sec]) :: rest else (c, l) :: insertSec rest code sec

/-- Outcome of `add_section`: success flag, resulting map, and the error
message printed on failure (the `ValueError` text). -/
structure AddResult where
  ok : Bool
  sections : SecMap
  err : Option String
deriving DecidableEq

/-- Validator `add_section(parts, sections, echo)` (lines 134-155): validate the five
fields in order, reject with the first rule's message, else append under the
course code. -/
def add_section (parts : Rec) (sections : SecMap) : AddResult :=
  match parts with
  | (subj, num, days0, start, dur) =>
    let code := subj ++ " " ++ num
    let days := days0.toUpper
    if !(crsRe subj && numRe num) then
      ⟨false, sections, some "course code malformed (e.g. MEEN 221)"⟩
    else if !daysRe days then
      ⟨false, sections, some "days must be combo of MTWRF"⟩
    else if !timeRe start then
      ⟨false, sections, some "start must be HH:MM 24-hour"⟩
    else if !(isDigits dur && 0 < strToNat dur) then
      ⟨false, sections, some "duration must be positive int"⟩
    else
      ⟨true, insertSec sections code ⟨days.data, to_minutes start, strToNat dur, code⟩, none⟩

/-- The record-ingestion loop (lines 164-165 / 173-174): every record is fed to
`add_section`; a rejected record leaves the map as it was and the loop goes on. -/
def processAll (recs : List Rec) (s : SecMap) : SecMap :=
  recs.foldl (fun m r => (add_section r m).sections) s

-- ═════════════ the per-day grids of `main` (lines 196-203) ═══════════════

/-- Dict `busy`: one merged interval list per weekday letter (the dict
`{d: [] for d in DAY_LETTERS}` and its successors). -/
structure Grid where
  m : List Iv
  t : List Iv
  w : List Iv
  r : List Iv
  f : List Iv
deriving DecidableEq

/-- Dict `busy_raw`: one labeled, unmerged entry list per weekday letter. -/
structure RawGrid where
  m : List LIv
  t : List LIv
  w : List LIv
  r : List LIv
  f : List LIv
deriving DecidableEq

/-- The empty `busy` dict (line 196). -/
def emptyGrid : Grid := ⟨[], [], [], [], []⟩

/-- The empty `busy_raw` dict (line 197). -/
def emptyRaw : RawGrid := ⟨[], [], [], [], []⟩

/-- Lookup `busy[d]` by weekday letter. -/
def getDay (g : Grid) (d : Char) : List Iv :=
  if d = 'M' then g.m else if d = 'T' then g.t else if d = 'W' then g.w
  else if d = 'R' then g.r else g.f

/-- Update `busy[d] = v` by weekday letter. -/
def setDay (g : Grid) (d : Char) (v : List Iv) : Grid :=
  if d = 'M' then { g with m := v } else if d = 'T' then { g with t := v }
  else if d = 'W' then { g with w := v } else if d = 'R' then { g with r := v }
  else { g with f := v }

/-- Lookup `busy_raw[d]` by weekday letter. -/
def getRaw (g : RawGrid) (d : Char) : List LIv :=
  if d = 'M' then g.m else if d = 'T' then g.t else if d = 'W' then g.w
  else if d = 'R' then g.r else g.f

/-- Update `busy_raw[d] = v` by weekday letter. -/
def setRaw (g : RawGrid) (d : Char) (v : List LIv) : RawGrid :=
  if d = 'M' then { g with m := v } else if d = 'T' then { g with t := v }
  else if d = 'W' then { g with w := v } else if d = 'R' then { g with r := v }
  else { g with f := v }

/-- Loop `for d in days: busy[d].append(iv)` (lines 200-201 / 233-234). -/
def appendDays (g : Grid) (days : List Char) (iv : Iv) : Grid :=
  days.foldl (fun g d => setDay g d (getDay g d ++ [iv])) g

/-- Loop `for d in days: busy_raw[d].append((iv[0], iv[1], code))`
(lines 202 / 235). -/
def appendRawDays (g : RawGrid) (days : List Char) (l : LIv) : RawGrid :=
  days.foldl (fun g d => setRaw g d (getRaw g d ++ [l])) g

/-- Comprehension re-merging every day of `busy` (lines 203 / 236). -/
def mergeAll (g : Grid) : Grid := ⟨merge g.m, merge g.t, merge g.w, merge g.r, merge g.f⟩

/-- The section's interval `(st, st+dur)` (lines 199 / 232). -/
def secIv (s : Sec) : Iv := (s.start, s.start + s.dur)

/-- Seeding (lines 196-203): append every mandatory section's interval to both
grids, then merge `busy` once per day. -/
def seedGrids (mandatory : List Sec) : Grid × RawGrid :=
  let busy := mandatory.foldl (fun g s => appendDays g s.days (secIv s)) emptyGrid
  let raw := mandatory.foldl (fun g s => appendRawDays g s.days (s.start, s.start + s.dur, s.code)) emptyRaw
  (mergeAll busy, raw)

/-- Committing a winning section (lines 231-236): append its interval to both
grids for each of its day letters, then re-merge `busy` for every day. -/
def commitStep (st : Grid × RawGrid) (sec : Sec) : Grid × RawGrid :=
  (mergeAll (appendDays st.1 sec.days (secIv sec)),
   appendRawDays st.2 sec.days (sec.start, sec.start + sec.dur, sec.code))

/-- The lockstep invariant of claim C4: for every day field, the Busy Grid is
the merge of the Labeled Busy Grid with the labels dropped. -/
def GridInv (B : Grid) (R : RawGrid) : Prop :=
  B.m = merge (R.m.map unlabel) ∧ B.t = merge (R.t.map unlabel) ∧
  B.w = merge (R.w.map unlabel) ∧ B.r = merge (R.r.map unlabel) ∧
  B.f = merge (R.f.map unlabel)

/-- The raw appends of seeding, before line 203's merge: the Busy Grid is the
Labeled Busy Grid with the labels dropped, day by day. -/
def Rel (B : Grid) (R : RawGrid) : Prop :=
  B.m = R.m.map unlabel ∧ B.t = R.t.map unlabel ∧ B.w = R.w.map unlabel ∧
  B.r = R.r.map unlabel ∧ B.f = R.f.map unlabel

/-- Every labeled entry is a well-formed interval (start at most end). -/
def WfRaw (R : RawGrid) : Prop :=
  (∀ p ∈ R.m, p.1 ≤ p.2.1) ∧ (∀ p ∈ R.t, p.1 ≤ p.2.1) ∧ (∀ p ∈ R.w, p.1 ≤ p.2.1) ∧
  (∀ p ∈ R.r, p.1 ≤ p.2.1) ∧ (∀ p ∈ R.f, p.1 ≤ p.2.1)

/-- Both grids extended in lockstep: each day field of the new grids is the
old field plus `k` copies of the same interval (labeled on the raw side). -/
def ExtBy (iv : Iv) (code : String) (B B' : Grid) (R R' : RawGrid) : Prop :=
  (∃ k, B'.m = B.m ++ List.replicate k iv ∧ R'.m = R.m ++ List.replicate k (iv.1, iv.2, code)) ∧
  (∃ k, B'.t = B.t ++ List.replicate k iv ∧ R'.t = R.t ++ List.replicate k (iv.1, iv.2, code)) ∧
  (∃ k, B'.w = B.w ++ List.replicate k iv ∧ R'.w = R.w ++ List.replicate k (iv.1, iv.2, code)) ∧
  (∃ k, B'.r = B.r ++ List.replicate k iv ∧ R'.r = R.r ++ List.replicate k (iv.1, iv.2, code)) ∧
  (∃ k, B'.f = B.f ++ List.replicate k iv ∧ R'.f = R.f ++ List.replicate k (iv.1, iv.2, code))

-- ═════════════ scoring and the greedy selector (lines 205-237) ═══════════

/-- Scoring function `windows_after_add(cand, grid)` (lines 205-212): add the candidate's
interval to a copy of the grid (merging each affected day) and count the free
blocks across all five weekdays. -/
def windows_after_add (cand : Sec) (grid : Grid) : Nat :=
  let tmp := cand.days.foldl
    (fun g d => setDay g d (merge (getDay g d ++ [(cand.start, cand.start + cand.dur)]))) grid
  (DAY_LETTERS.map (fun d => ((free_and_min_conflict (getDay tmp d)).1).length)).sum

/-- The call `score = windows_after_add(cand, busy)` with the caller's grid
threaded through: line 206's `deepcopy` means the mutations of `tmp` act on a
fresh value, so the caller's `busy` comes back as it went in. -/
def windows_after_add_call (cand : Sec) (grid : Grid) : Nat × Grid :=
  (windows_after_add cand grid, grid)

/-- The scoring pass over candidates (lines 220-222), threading the live
`busy` value through each `windows_after_add` call. -/
def scorePass (grid : Grid) : List (String × Sec) → Grid × List Nat
  | [] => (grid, [])
  | p :: rest =>
    let sg := windows_after_add_call p.2 grid
    let acc := scorePass sg.2 rest
    (acc.1, sg.1 :: acc.2)

/-- One candidate of the selection loop (lines 220-229): a strictly higher
score replaces the best; an equal score replaces it only when the candidate's
start minute is strictly smaller. -/
def selectStep (grid : Grid) (acc : Option (String × Sec × Nat)) (p : String × Sec) :
    Option (String × Sec × Nat) :=
  let score := windows_after_add p.2 grid
  match acc with
  | none => some (p.1, p.2, score)
  | some (bc, bs, bsc) =>
    if bsc < score then some (p.1, p.2, score)
    else if score = bsc ∧ p.2.start < bs.start then some (p.1, p.2, bsc)
    else some (bc, bs, bsc)

/-- The inner double loop of one `while options` iteration (lines 215-229),
over the flattened `(course, candidate)` pairs in iteration order. -/
def selectBest (grid : Grid) (cands : List (String × Sec)) : Option (String × Sec × Nat) :=
  cands.foldl (selectStep grid) none

/-- Flattening of `options.items()` to `(course, candidate)` pairs in order. -/
def flattenOptions (options : List (String × List Sec)) : List (String × Sec) :=
  (options.map (fun p => p.2.map (fun sec => (p.1, sec)))).flatten

/-- The `while options` loop (lines 214-237): select the best candidate,
record it in `chosen`, commit it to both grids, drop its course, repeat.
`fuel` bounds the iteration count; `main` supplies `options.length`, which is
enough because each iteration removes the winning course. -/
def greedyLoop : Nat → List (String × List Sec) → Grid × RawGrid →
    List (String × Sec) × Grid × RawGrid
  | 0, _, st => ([], st)
  | Nat.succ fuel, options, st =>
    if options.isEmpty then ([], st)
    else
      match selectBest st.1 (flattenOptions options) with
      | none => ([], st)
      | some (bc, bs, _) =>
        let st' := commitStep st bs
        let rec' := greedyLoop fuel (options.filter (fun p => p.1 ≠ bc)) st'
        ((bc, bs) :: rec'.1, rec'.2)

/-- The greedy selector run to completion on the optional courses. -/
def runGreedy (options : List (String × List Sec)) (st : Grid × RawGrid) :
    List (String × Sec) × Grid × RawGrid :=
  greedyLoop options.length options st

-- ═════════════ example inputs used by the concrete scenarios ═════════════

/-- Scenario A's single mandatory section: "ABCD 101", Monday 08:00, 100 min. -/
def secA : Sec := ⟨['M'], 480, 100, "ABCD 101"⟩

/-- Scenario B's first optional section: "WXYZ 305", Monday 08:00, 100 min. -/
def secB1 : Sec := ⟨['M'], 480, 100, "WXYZ 305"⟩

/-- Scenario B's second optional section: "WXYZ 305", Monday 14:00, 100 min. -/
def secB2 : Sec := ⟨['M'], 840, 100, "WXYZ 305"⟩

/-- A labeled day on which every candidate block overlaps both of two distinct
classes, while the merged view collapses them into one interval. -/
def exDay : List LIv := [(0, 1200, "AAAA 111"), (560, 990, "BBBB 222")]

-- ═════════════════════ theory of `merge` ═════════════════════════════════

theorem ivLE_refl (a : Iv) : ivLE a a := by
  unfold ivLE; omega

theorem ivLE_trans {a b c : Iv} (hab : ivLE a b) (hbc : ivLE b c) : ivLE a c := by
  unfold ivLE at *; omega

theorem cover2_cons {a : Iv} {l : List Iv} {x : Nat} :
    cover2 (a :: l) x ↔ (2 * a.1 ≤ x ∧ x ≤ 2 * a.2) ∨ cover2 l x := by
  simp [cover2]

theorem cover2_append {l1 l2 : List Iv} {x : Nat} :
    cover2 (l1 ++ l2) x ↔ cover2 l1 x ∨ cover2 l2 x := by
  simp [cover2, List.mem_append, or_and_right, exists_or]

theorem cover2_nil {x : Nat} : ¬ cover2 ([] : List Iv) x := by
  simp [cover2]

theorem mergeAux_head : ∀ (rest : List Iv) (c1 c2 : Nat),
    ∃ E tl, mergeAux (c1, c2) rest = (c1, E) :: tl ∧ c2 ≤ E
  | [], c1, c2 => ⟨c2, [], rfl, Nat.le_refl _⟩
  | (s, e) :: rest, c1, c2 => by
    unfold mergeAux
    by_cases h : c2 < s
    · rw [if_pos h]
      exact ⟨c2, mergeAux (s, e) rest, rfl, Nat.le_refl _⟩
    · rw [if_neg h]
      obtain ⟨E, tl, heq, hle⟩ := mergeAux_head rest c1 (max c2 e)
      exact ⟨E, tl, heq, Nat.le_trans (Nat.le_max_left _ _) hle⟩

theorem mergeAux_mem_le : ∀ (rest : List Iv) (cur : Iv),
    List.Sorted ivLE (cur :: rest) → ∀ y ∈ mergeAux cur rest, ivLE cur y
  | [], cur, _, y, hy => by
    simp only [mergeAux, List.mem_singleton] at hy
    exact hy ▸ ivLE_refl cur
  | (s, e) :: rest, cur, hs, y, hy => by
    rw [List.sorted_cons] at hs
    obtain ⟨hrel, hrest⟩ := hs
    have hcse : ivLE cur (s, e) := hrel _ (List.mem_cons_self _ _)
    unfold mergeAux at hy
    by_cases h : cur.2 < s
    · rw [if_pos h] at hy
      rcases List.mem_cons.mp hy with rfl | hy'
      · exact ivLE_refl y
      · exact ivLE_trans hcse (mergeAux_mem_le rest (s, e) hrest y hy')
    · rw [if_neg h] at hy
      have hsorted : List.Sorted ivLE ((cur.1, max cur.2 e) :: rest) := by
        rw [List.sorted_cons]
        refine ⟨fun z hz => ?_, hrest.tail⟩
        have h1 : ivLE (s, e) z := List.rel_of_sorted_cons hrest z hz
        unfold ivLE at hcse h1 ⊢
        simp only at hcse h1 ⊢
        omega
      have := mergeAux_mem_le rest (cur.1, max cur.2 e) hsorted y hy
      unfold ivLE at this ⊢
      simp only at this ⊢
      omega

theorem sorted_absorb {cur : Iv} {s e : Nat} {rest : List Iv}
    (hs : List.Sorted ivLE (cur :: (s, e) :: rest)) :
    List.Sorted ivLE ((cur.1, max cur.2 e) :: rest) := by
  rw [List.sorted_cons] at hs
  obtain ⟨hrel, hrest⟩ := hs
  have hcse : ivLE cur (s, e) := hrel _ (List.mem_cons_self _ _)
  rw [List.sorted_cons]
  refine ⟨fun z hz => ?_, hrest.tail⟩
  have h1 : ivLE (s, e) z := List.rel_of_sorted_cons hrest z hz
  unfold ivLE at hcse h1 ⊢
  simp only at hcse h1 ⊢
  omega

theorem mergeAux_sorted : ∀ (rest : List Iv) (cur : Iv),
    List.Sorted ivLE (cur :: rest) → List.Sorted ivLE (mergeAux cur rest)
  | [], cur, _ => List.sorted_singleton cur
  | (s, e) :: rest, cur, hs => by
    unfold mergeAux
    by_cases h : cur.2 < s
    · rw [if_pos h, List.sorted_cons]
      have hrest := (List.sorted_cons.mp hs).2
      refine ⟨fun y hy => ?_, mergeAux_sorted rest (s, e) hrest⟩
      have hcse : ivLE cur (s, e) := (List.sorted_cons.mp hs).1 _ (List.mem_cons_self _ _)
      exact ivLE_trans hcse (mergeAux_mem_le rest (s, e) hrest y hy)
    · rw [if_neg h]
      exact mergeAux_sorted rest _ (sorted_absorb hs)

theorem mergeAux_chain : ∀ (rest : List Iv) (cur : Iv),
    List.Sorted ivLE (cur :: rest) → List.Chain' gap (mergeAux cur rest)
  | [], cur, _ => List.chain'_singleton cur
  | (s, e) :: rest, cur, hs => by
    unfold mergeAux
    by_cases h : cur.2 < s
    · rw [if_pos h]
      obtain ⟨E, tl, heq, _⟩ := mergeAux_head rest s e
      rw [heq, List.chain'_cons]
      have hrest := (List.sorted_cons.mp hs).2
      have := mergeAux_chain rest (s, e) hrest
      rw [heq] at this
      exact ⟨h, this⟩
    · rw [if_neg h]
      exact mergeAux_chain rest _ (sorted_absorb hs)

theorem mergeAux_id : ∀ (rest : List Iv) (cur : Iv),
    List.Chain' gap (cur :: rest) → mergeAux cur rest = cur :: rest
  | [], cur, _ => rfl
  | (s, e) :: rest, cur, hc => by
    rw [List.chain'_cons] at hc
    unfold mergeAux
    rw [if_pos (show cur.2 < s from hc.1), mergeAux_id rest (s, e) hc.2]

theorem mergeAux_cover : ∀ (rest : List Iv) (cur : Iv),
    List.Sorted ivLE (cur :: rest) →
    ∀ x, cover2 (mergeAux cur rest) x ↔ cover2 (cur :: rest) x
  | [], cur, _, x => Iff.rfl
  | (s, e) :: rest, cur, hs, x => by
    unfold mergeAux
    by_cases h : cur.2 < s
    · rw [if_pos h]
      have hrest := (List.sorted_cons.mp hs).2
      have hrec := mergeAux_cover rest (s, e) hrest x
      simp only [cover2_cons] at hrec ⊢
      tauto
    · rw [if_neg h]
      have hcse : ivLE cur (s, e) := (List.sorted_cons.mp hs).1 _ (List.mem_cons_self _ _)
      rw [mergeAux_cover rest _ (sorted_absorb hs) x]
      simp only [cover2_cons]
      unfold ivLE at hcse
      simp only at hcse ⊢
      rw [not_lt] at h
      constructor
      · rintro (h1 | hP)
        · by_cases hx : x ≤ 2 * cur.2
          · exact Or.inl ⟨h1.1, hx⟩
          · refine Or.inr (Or.inl ?_)
            omega
        · exact Or.inr (Or.inr hP)
      · rintro (h1 | h2 | hP)
        · refine Or.inl ?_
          omega
        · refine Or.inl ?_
          omega
        · exact Or.inr hP

theorem mergeAux_wf : ∀ (rest : List Iv) (cur : Iv),
    (∀ p ∈ cur :: rest, p.1 ≤ p.2) → ∀ p ∈ mergeAux cur rest, p.1 ≤ p.2
  | [], cur, hwf, p, hp => by
    simp only [mergeAux, List.mem_singleton] at hp
    exact hp ▸ hwf cur (List.mem_cons_self _ _)
  | (s, e) :: rest, cur, hwf, p, hp => by
    unfold mergeAux at hp
    by_cases h : cur.2 < s
    · rw [if_pos h] at hp
      rcases List.mem_cons.mp hp with rfl | hp'
      · exact hwf p (List.mem_cons_self _ _)
      · exact mergeAux_wf rest (s, e)
          (fun q hq => hwf q (List.mem_cons_of_mem _ hq)) p hp'
    · rw [if_neg h] at hp
      refine mergeAux_wf rest (cur.1, max cur.2 e) (fun q hq => ?_) p hp
      rcases List.mem_cons.mp hq with rfl | hq'
      · have h1 := hwf cur (List.mem_cons_self _ _)
        simp only
        omega
      · exact hwf q (List.mem_cons_of_mem _ (List.mem_cons_of_mem _ hq'))

theorem chain_wf_tail_gt : ∀ (l : List Iv) (s e : Nat),
    List.Chain' gap ((s, e) :: l) → WfIvs ((s, e) :: l) → ∀ p ∈ l, e < p.1
  | [], _, _, _, _, p, hp => absurd hp (List.not_mem_nil p)
  | (s', e') :: l', s, e, hc, hwf, p, hp => by
    rw [List.chain'_cons] at hc
    rcases List.mem_cons.mp hp with rfl | hp'
    · exact hc.1
    · have h1 := chain_wf_tail_gt l' s' e' hc.2
        (fun q hq => hwf q (List.mem_cons_of_mem _ hq)) p hp'
      have h2 : s' ≤ e' := hwf (s', e') (List.mem_cons_of_mem _ (List.mem_cons_self _ _))
      have h3 : e < s' := hc.1
      omega

theorem cover2_unique : ∀ (A B : List Iv),
    List.Chain' gap A → List.Chain' gap B → WfIvs A → WfIvs B →
    (∀ x, cover2 A x ↔ cover2 B x) → A = B
  | [], [], _, _, _, _, _ => rfl
  | [], (s, e) :: B', _, _, _, hwB, hcov => by
    exfalso
    have h2 : s ≤ e := hwB (s, e) (List.mem_cons_self _ _)
    have h1 : cover2 ((s, e) :: B') (2 * s) :=
      ⟨(s, e), List.mem_cons_self _ _, by omega, by omega⟩
    exact cover2_nil ((hcov (2 * s)).mpr h1)
  | (s, e) :: A', [], _, _, hwA, _, hcov => by
    exfalso
    have h2 : s ≤ e := hwA (s, e) (List.mem_cons_self _ _)
    have h1 : cover2 ((s, e) :: A') (2 * s) :=
      ⟨(s, e), List.mem_cons_self _ _, by omega, by omega⟩
    exact cover2_nil ((hcov (2 * s)).mp h1)
  | (s1, e1) :: A', (s2, e2) :: B', hcA, hcB, hwA, hwB, hcov => by
    have hw1 : s1 ≤ e1 := hwA (s1, e1) (List.mem_cons_self _ _)
    have hw2 : s2 ≤ e2 := hwB (s2, e2) (List.mem_cons_self _ _)
    have hs12 : s1 = s2 := by
      obtain ⟨p, hp, hp1, hp2⟩ :=
        (hcov (2 * s1)).mp ⟨(s1, e1), List.mem_cons_self _ _, by omega, by omega⟩
      obtain ⟨q, hq, hq1, hq2⟩ :=
        (hcov (2 * s2)).mpr ⟨(s2, e2), List.mem_cons_self _ _, by omega, by omega⟩
      have hbp : s2 ≤ p.1 := by
        rcases List.mem_cons.mp hp with rfl | hp'
        · omega
        · have := chain_wf_tail_gt B' s2 e2 hcB hwB p hp'
          omega
      have hbq : s1 ≤ q.1 := by
        rcases List.mem_cons.mp hq with rfl | hq'
        · omega
        · have := chain_wf_tail_gt A' s1 e1 hcA hwA q hq'
          omega
      omega
    subst hs12
    have he12 : e1 = e2 := by
      rcases Nat.lt_trichotomy e1 e2 with hlt | heq | hgt
      · exfalso
        obtain ⟨p, hp, h1, h2⟩ :=
          (hcov (2 * e1 + 1)).mpr ⟨(s1, e2), List.mem_cons_self _ _, by omega, by omega⟩
        rcases List.mem_cons.mp hp with rfl | hp'
        · omega
        · have := chain_wf_tail_gt A' s1 e1 hcA hwA p hp'
          omega
      · exact heq
      · exfalso
        obtain ⟨p, hp, h1, h2⟩ :=
          (hcov (2 * e2 + 1)).mp ⟨(s1, e1), List.mem_cons_self _ _, by omega, by omega⟩
        rcases List.mem_cons.mp hp with rfl | hp'
        · omega
        · have := chain_wf_tail_gt B' s1 e2 hcB hwB p hp'
          omega
    subst he12
    have hcov' : ∀ x, cover2 A' x ↔ cover2 B' x := by
      intro x
      constructor
      · rintro ⟨p, hp, h1, h2⟩
        have hgt : e1 < p.1 := chain_wf_tail_gt A' s1 e1 hcA hwA p hp
        obtain ⟨q, hq, hq1, hq2⟩ :=
          (hcov x).mp ⟨p, List.mem_cons_of_mem _ hp, h1, h2⟩
        rcases List.mem_cons.mp hq with rfl | hq'
        · exfalso
          omega
        · exact ⟨q, hq', hq1, hq2⟩
      · rintro ⟨p, hp, h1, h2⟩
        have hgt : e1 < p.1 := chain_wf_tail_gt B' s1 e1 hcB hwB p hp
        obtain ⟨q, hq, hq1, hq2⟩ :=
          (hcov x).mpr ⟨p, List.mem_cons_of_mem _ hp, h1, h2⟩
        rcases List.mem_cons.mp hq with rfl | hq'
        · exfalso
          omega
        · exact ⟨q, hq', hq1, hq2⟩
    rw [cover2_unique A' B' hcA.tail hcB.tail
      (fun p hp => hwA p (List.mem_cons_of_mem _ hp))
      (fun p hp => hwB p (List.mem_cons_of_mem _ hp)) hcov']

theorem merge_spec (L : List Iv) :
    List.Sorted ivLE (merge L) ∧ List.Chain' gap (merge L) ∧
      (∀ x, cover2 (merge L) x ↔ cover2 L x) := by
  unfold merge
  cases h : List.insertionSort ivLE L with
  | nil =>
    have hperm := List.perm_insertionSort ivLE L
    rw [h] at hperm
    have hL : L = [] := hperm.nil_eq.symm
    subst hL
    exact ⟨List.sorted_nil, List.chain'_nil, fun x => Iff.rfl⟩
  | cons a rest =>
    have hsort : List.Sorted ivLE (a :: rest) := by
      have := List.sorted_insertionSort ivLE L
      rw [h] at this
      exact this
    have hperm := List.perm_insertionSort ivLE L
    rw [h] at hperm
    refine ⟨mergeAux_sorted _ _ hsort, mergeAux_chain _ _ hsort, fun x => ?_⟩
    rw [mergeAux_cover _ _ hsort x]
    unfold cover2
    constructor <;> rintro ⟨p, hp, h1, h2⟩
    · exact ⟨p, hperm.mem_iff.mp hp, h1, h2⟩
    · exact ⟨p, hperm.mem_iff.mpr hp, h1, h2⟩

theorem merge_sorted (L : List Iv) : List.Sorted ivLE (merge L) := (merge_spec L).1

theorem merge_chain (L : List Iv) : List.Chain' gap (merge L) := (merge_spec L).2.1

theorem merge_cover (L : List Iv) (x : Nat) : cover2 (merge L) x ↔ cover2 L x :=
  (merge_spec L).2.2 x

theorem merge_wf (L : List Iv) (hL : WfIvs L) : WfIvs (merge L) := by
  unfold merge
  cases h : List.insertionSort ivLE L with
  | nil => exact fun p hp => absurd hp (List.not_mem_nil p)
  | cons a rest =>
    have hperm := List.perm_insertionSort ivLE L
    rw [h] at hperm
    exact mergeAux_wf rest a (fun p hp => hL p (hperm.mem_iff.mp hp))

/-- C6: `merge` is idempotent — `merge(merge(X)) == merge(X)` for every list
of half-open intervals `X`. -/
theorem merge_idem (X : List Iv) : merge (merge X) = merge X := by
  have hs := merge_sorted X
  have hc := merge_chain X
  generalize hM : merge X = M at hs hc ⊢
  unfold merge
  rw [hs.insertionSort_eq]
  cases hMM : M with
  | nil => rfl
  | cons y tl =>
    rw [hMM] at hc
    exact mergeAux_id tl y hc

theorem merge_merge_append (L M : List Iv) (hL : WfIvs L) (hM : WfIvs M) :
    merge (merge L ++ M) = merge (L ++ M) := by
  have hwLM : WfIvs (L ++ M) := by
    intro p hp
    rcases List.mem_append.mp hp with h | h
    · exact hL p h
    · exact hM p h
  have hw1 : WfIvs (merge L ++ M) := by
    intro p hp
    rcases List.mem_append.mp hp with h | h
    · exact merge_wf L hL p h
    · exact hM p h
  apply cover2_unique _ _ (merge_chain _) (merge_chain _) (merge_wf _ hw1) (merge_wf _ hwLM)
  intro x
  rw [merge_cover, merge_cover, cover2_append, cover2_append, merge_cover]

-- ═════════════ the lockstep invariant of the two grids (C4) ═══════════════

theorem ext_refl (iv : Iv) (code : String) (B : Grid) (R : RawGrid) :
    ExtBy iv code B B R R := by
  unfold ExtBy
  exact ⟨⟨0, by simp, by simp⟩, ⟨0, by simp, by simp⟩, ⟨0, by simp, by simp⟩,
    ⟨0, by simp, by simp⟩, ⟨0, by simp, by simp⟩⟩

theorem ext_trans {iv : Iv} {code : String} {B B1 B2 : Grid} {R R1 R2 : RawGrid}
    (h1 : ExtBy iv code B B1 R R1) (h2 : ExtBy iv code B1 B2 R1 R2) :
    ExtBy iv code B B2 R R2 := by
  unfold ExtBy at *
  obtain ⟨⟨a1, ha1, ha1'⟩, ⟨a2, ha2, ha2'⟩, ⟨a3, ha3, ha3'⟩, ⟨a4, ha4, ha4'⟩, ⟨a5, ha5, ha5'⟩⟩ := h1
  obtain ⟨⟨b1, hb1, hb1'⟩, ⟨b2, hb2, hb2'⟩, ⟨b3, hb3, hb3'⟩, ⟨b4, hb4, hb4'⟩, ⟨b5, hb5, hb5'⟩⟩ := h2
  refine ⟨⟨a1 + b1, ?_, ?_⟩, ⟨a2 + b2, ?_, ?_⟩, ⟨a3 + b3, ?_, ?_⟩, ⟨a4 + b4, ?_, ?_⟩,
    ⟨a5 + b5, ?_, ?_⟩⟩
  · rw [hb1, ha1, List.append_assoc, ← List.replicate_add]
  · rw [hb1', ha1', List.append_assoc, ← List.replicate_add]
  · rw [hb2, ha2, List.append_assoc, ← List.replicate_add]
  · rw [hb2', ha2', List.append_assoc, ← List.replicate_add]
  · rw [hb3, ha3, List.append_assoc, ← List.replicate_add]
  · rw [hb3', ha3', List.append_assoc, ← List.replicate_add]
  · rw [hb4, ha4, List.append_assoc, ← List.replicate_add]
  · rw [hb4', ha4', List.append_assoc, ← List.replicate_add]
  · rw [hb5, ha5, List.append_assoc, ← List.replicate_add]
  · rw [hb5', ha5', List.append_assoc, ← List.replicate_add]

theorem ext_step (c : Char) (B : Grid) (R : RawGrid) (iv : Iv) (code : String) :
    ExtBy iv code B (setDay B c (getDay B c ++ [iv]))
      R (setRaw R c (getRaw R c ++ [(iv.1, iv.2, code)])) := by
  unfold ExtBy setDay setRaw getDay getRaw
  split_ifs
  · exact ⟨⟨1, by simp, by simp⟩, ⟨0, by simp, by simp⟩, ⟨0, by simp, by simp⟩,
      ⟨0, by simp, by simp⟩, ⟨0, by simp, by simp⟩⟩
  · exact ⟨⟨0, by simp, by simp⟩, ⟨1, by simp, by simp⟩, ⟨0, by simp, by simp⟩,
      ⟨0, by simp, by simp⟩, ⟨0, by simp, by simp⟩⟩
  · exact ⟨⟨0, by simp, by simp⟩, ⟨0, by simp, by simp⟩, ⟨1, by simp, by simp⟩,
      ⟨0, by simp, by simp⟩, ⟨0, by simp, by simp⟩⟩
  · exact ⟨⟨0, by simp, by simp⟩, ⟨0, by simp, by simp⟩, ⟨0, by simp, by simp⟩,
      ⟨1, by simp, by simp⟩, ⟨0, by simp, by simp⟩⟩
  · exact ⟨⟨0, by simp, by simp⟩, ⟨0, by simp, by simp⟩, ⟨0, by simp, by simp⟩,
      ⟨0, by simp, by simp⟩, ⟨1, by simp, by simp⟩⟩

theorem ext_append : ∀ (days : List Char) (B : Grid) (R : RawGrid) (iv : Iv) (code : String),
    ExtBy iv code B (appendDays B days iv) R (appendRawDays R days (iv.1, iv.2, code))
  | [], B, R, iv, code => ext_refl iv code B R
  | c :: cs, B, R, iv, code => by
    unfold appendDays appendRawDays
    rw [List.foldl_cons, List.foldl_cons]
    exact ext_trans (ext_step c B R iv code)
      (ext_append cs (setDay B c (getDay B c ++ [iv]))
        (setRaw R c (getRaw R c ++ [(iv.1, iv.2, code)])) iv code)

theorem rel_of_ext {iv : Iv} {code : String} {B B' : Grid} {R R' : RawGrid}
    (hrel : Rel B R) (hext : ExtBy iv code B B' R R') : Rel B' R' := by
  unfold Rel at *
  unfold ExtBy at hext
  obtain ⟨⟨k1, h1, h1'⟩, ⟨k2, h2, h2'⟩, ⟨k3, h3, h3'⟩, ⟨k4, h4, h4'⟩, ⟨k5, h5, h5'⟩⟩ := hext
  refine ⟨?_, ?_, ?_, ?_, ?_⟩ <;>
    simp_all [List.map_append, List.map_replicate, unlabel]

theorem wfraw_of_ext {a b : Nat} {code : String} {B B' : Grid} {R R' : RawGrid}
    (hab : a ≤ b) (hwf : WfRaw R) (hext : ExtBy (a, b) code B B' R R') : WfRaw R' := by
  unfold WfRaw at *
  unfold ExtBy at hext
  obtain ⟨⟨k1, _, h1⟩, ⟨k2, _, h2⟩, ⟨k3, _, h3⟩, ⟨k4, _, h4⟩, ⟨k5, _, h5⟩⟩ := hext
  obtain ⟨w1, w2, w3, w4, w5⟩ := hwf
  rw [h1, h2, h3, h4, h5]
  refine ⟨?_, ?_, ?_, ?_, ?_⟩ <;>
  · intro p hp
    rcases List.mem_append.mp hp with h | h
    · first
      | exact w1 p h
      | exact w2 p h
      | exact w3 p h
      | exact w4 p h
      | exact w5 p h
    · have := List.eq_of_mem_replicate h
      subst this
      exact hab

theorem seed_rel_wf (mandatory : List Sec) :
    Rel (mandatory.foldl (fun g s => appendDays g s.days (secIv s)) emptyGrid)
        (mandatory.foldl (fun g s => appendRawDays g s.days (s.start, s.start + s.dur, s.code)) emptyRaw)
    ∧ WfRaw (mandatory.foldl (fun g s => appendRawDays g s.days (s.start, s.start + s.dur, s.code)) emptyRaw) := by
  suffices h : ∀ (l : List Sec) (B : Grid) (R : RawGrid), Rel B R → WfRaw R →
      Rel (l.foldl (fun g s => appendDays g s.days (secIv s)) B)
        (l.foldl (fun g s => appendRawDays g s.days (s.start, s.start + s.dur, s.code)) R)
      ∧ WfRaw (l.foldl (fun g s => appendRawDays g s.days (s.start, s.start + s.dur, s.code)) R) by
    refine h mandatory emptyGrid emptyRaw ?_ ?_
    · exact ⟨rfl, rfl, rfl, rfl, rfl⟩
    · exact ⟨fun p hp => absurd hp (List.not_mem_nil p), fun p hp => absurd hp (List.not_mem_nil p),
        fun p hp => absurd hp (List.not_mem_nil p), fun p hp => absurd hp (List.not_mem_nil p),
        fun p hp => absurd hp (List.not_mem_nil p)⟩
  intro l
  induction l with
  | nil => exact fun B R hrel hwf => ⟨hrel, hwf⟩
  | cons sec rest ih =>
    intro B R hrel hwf
    rw [List.foldl_cons, List.foldl_cons]
    have hext := ext_append sec.days B R (secIv sec) sec.code
    exact ih _ _ (rel_of_ext hrel hext)
      (wfraw_of_ext (Nat.le_add_right _ _) hwf hext)

theorem inv_of_rel {B : Grid} {R : RawGrid} (h : Rel B R) : GridInv (mergeAll B) R := by
  unfold Rel at h
  unfold GridInv mergeAll
  obtain ⟨h1, h2, h3, h4, h5⟩ := h
  exact ⟨by rw [h1], by rw [h2], by rw [h3], by rw [h4], by rw [h5]⟩

theorem wf_map_unlabel {l : List LIv} (h : ∀ p ∈ l, p.1 ≤ p.2.1) :
    WfIvs (l.map unlabel) := by
  intro p hp
  obtain ⟨q, hq, rfl⟩ := List.mem_map.mp hp
  exact h q hq

theorem wf_replicate (k a b : Nat) (hab : a ≤ b) : WfIvs (List.replicate k ((a, b) : Iv)) := by
  intro p hp
  have := List.eq_of_mem_replicate hp
  subst this
  exact hab

theorem inv_commit {B : Grid} {R : RawGrid} (sec : Sec)
    (hInv : GridInv B R) (hWf : WfRaw R) :
    GridInv (commitStep (B, R) sec).1 (commitStep (B, R) sec).2
    ∧ WfRaw (commitStep (B, R) sec).2 := by
  have hext := ext_append sec.days B R (secIv sec) sec.code
  simp only [secIv] at hext
  constructor
  · unfold commitStep mergeAll
    unfold ExtBy at hext
    obtain ⟨⟨k1, b1, r1⟩, ⟨k2, b2, r2⟩, ⟨k3, b3, r3⟩, ⟨k4, b4, r4⟩, ⟨k5, b5, r5⟩⟩ := hext
    obtain ⟨i1, i2, i3, i4, i5⟩ := hInv
    obtain ⟨w1, w2, w3, w4, w5⟩ := hWf
    refine ⟨?_, ?_, ?_, ?_, ?_⟩ <;> simp only [secIv]
    · rw [b1, r1, i1, merge_merge_append _ _ (wf_map_unlabel w1)
        (wf_replicate _ _ _ (Nat.le_add_right _ _)), List.map_append, List.map_replicate]
      rfl
    · rw [b2, r2, i2, merge_merge_append _ _ (wf_map_unlabel w2)
        (wf_replicate _ _ _ (Nat.le_add_right _ _)), List.map_append, List.map_replicate]
      rfl
    · rw [b3, r3, i3, merge_merge_append _ _ (wf_map_unlabel w3)
        (wf_replicate _ _ _ (Nat.le_add_right _ _)), List.map_append, List.map_replicate]
      rfl
    · rw [b4, r4, i4, merge_merge_append _ _ (wf_map_unlabel w4)
        (wf_replicate _ _ _ (Nat.le_add_right _ _)), List.map_append, List.map_replicate]
      rfl
    · rw [b5, r5, i5, merge_merge_append _ _ (wf_map_unlabel w5)
        (wf_replicate _ _ _ (Nat.le_add_right _ _)), List.map_append, List.map_replicate]
      rfl
  · exact wfraw_of_ext (Nat.le_add_right _ _) hWf hext

theorem inv_foldl_commit : ∀ (commits : List Sec) (B : Grid) (R : RawGrid),
    GridInv B R → WfRaw R →
    GridInv (commits.foldl commitStep (B, R)).1 (commits.foldl commitStep (B, R)).2
  | [], _, _, hInv, _ => hInv
  | sec :: rest, B, R, hInv, hWf => by
    rw [List.foldl_cons]
    obtain ⟨h1, h2⟩ := inv_commit sec hInv hWf
    have : commitStep (B, R) sec = ((commitStep (B, R) sec).1, (commitStep (B, R) sec).2) := rfl
    rw [this]
    exact inv_foldl_commit rest _ _ h1 h2

/-- C4: at every point after seeding and after each prefix of commits, and for
every weekday letter, merging the Labeled Busy Grid's entries for that day and
discarding the course labels reproduces the Busy Grid's merged list exactly. -/
theorem busy_grids_lockstep (mandatory commits : List Sec) (d : Char) :
    getDay (commits.foldl commitStep (seedGrids mandatory)).1 d
      = merge ((getRaw (commits.foldl commitStep (seedGrids mandatory)).2 d).map unlabel) := by
  obtain ⟨hrel, hwf⟩ := seed_rel_wf mandatory
  have hseed : GridInv (seedGrids mandatory).1 (seedGrids mandatory).2 :=
    inv_of_rel hrel
  have hinv : GridInv (commits.foldl commitStep (seedGrids mandatory)).1
      (commits.foldl commitStep (seedGrids mandatory)).2 := by
    have : seedGrids mandatory = ((seedGrids mandatory).1, (seedGrids mandatory).2) := rfl
    rw [this]
    exact inv_foldl_commit commits _ _ hseed hwf
  obtain ⟨h1, h2, h3, h4, h5⟩ := hinv
  unfold getDay getRaw
  split_ifs <;> assumption

-- ═════════════ the argmin scan folds (C3, C5, C10) ═══════════════════════

theorem foldl_preserve {α β : Type} (P : α → Prop) (f : α → β → α)
    (hf : ∀ a b, P a → P (f a b)) : ∀ (l : List β) (a : α), P a → P (l.foldl f a)
  | [], _, ha => ha
  | b :: l, a, ha => foldl_preserve P f hf l (f a b) (hf a b ha)

theorem minfold_le_init (count : Nat → Nat) :
    ∀ (l : List Nat) (m : Nat), l.foldl (fun a s => min a (count s)) m ≤ m
  | [], _ => Nat.le_refl _
  | s :: l, m =>
    Nat.le_trans (minfold_le_init count l (min m (count s))) (Nat.min_le_left _ _)

theorem minfold_le_mem (count : Nat → Nat) :
    ∀ (l : List Nat) (m : Nat), ∀ s ∈ l, l.foldl (fun a s => min a (count s)) m ≤ count s
  | s' :: l, m, s, hs => by
    rcases List.mem_cons.mp hs with rfl | hs'
    · rw [List.foldl_cons]
      exact Nat.le_trans (minfold_le_init count l _) (Nat.min_le_right _ _)
    · rw [List.foldl_cons]
      exact minfold_le_mem count l _ s hs'

theorem minfold_achieved (count : Nat → Nat) :
    ∀ (l : List Nat) (m : Nat),
      l.foldl (fun a s => min a (count s)) m = m
      ∨ ∃ s ∈ l, count s = l.foldl (fun a s => min a (count s)) m
  | [], _ => Or.inl rfl
  | s :: l, m => by
    rw [List.foldl_cons]
    rcases minfold_achieved count l (min m (count s)) with h | ⟨s', hs', h⟩
    · rcases Nat.le_total m (count s) with hle | hle
      · exact Or.inl (h.trans (Nat.min_eq_left hle))
      · exact Or.inr ⟨s, List.mem_cons_self _ _, (h.trans (Nat.min_eq_right hle)).symm⟩
    · exact Or.inr ⟨s', List.mem_cons_of_mem _ hs', h⟩

theorem scanmin_fold_char (count : Nat → Nat) :
    ∀ (rest : List Nat) (b : List Nat) (m : Nat), (∀ x ∈ b, count x = m) →
      rest.foldl (scanMinStep count) (b, some m)
        = ((b ++ rest).filter (fun s => count s = rest.foldl (fun a s => min a (count s)) m),
           some (rest.foldl (fun a s => min a (count s)) m))
  | [], b, m, hb => by
    simp only [List.foldl_nil, List.append_nil]
    refine Prod.ext ?_ rfl
    exact (List.filter_eq_self.mpr (fun a ha => by simp [hb a ha])).symm
  | s :: rest, b, m, hb => by
    rw [List.foldl_cons, List.foldl_cons]
    have hstep : scanMinStep count (b, some m) s =
        if count s < m then ([s], some (count s))
        else if count s = m then (b ++ [s], some m) else (b, some m) := rfl
    rcases Nat.lt_trichotomy (count s) m with hlt | heq | hgt
    · rw [hstep, if_pos hlt]
      rw [scanmin_fold_char count rest [s] (count s)
        (fun x hx => by rw [List.mem_singleton.mp hx])]
      have hmin : min m (count s) = count s := Nat.min_eq_right (Nat.le_of_lt hlt)
      rw [hmin]
      have hmf := minfold_le_init count rest (count s)
      refine Prod.ext ?_ rfl
      simp only
      have hbnil : b.filter
          (fun x => decide (count x = rest.foldl (fun a s => min a (count s)) (count s))) = [] := by
        rw [List.filter_eq_nil_iff]
        intro a ha
        have := hb a ha
        simp only [decide_eq_true_eq]
        omega
      rw [List.singleton_append, List.filter_append, hbnil, List.nil_append]
    · rw [hstep, if_neg (by omega), if_pos heq]
      rw [scanmin_fold_char count rest (b ++ [s]) m
        (fun x hx => by
          rcases List.mem_append.mp hx with h | h
          · exact hb x h
          · rw [List.mem_singleton.mp h, heq])]
      have hmin : min m (count s) = m := Nat.min_eq_left (Nat.le_of_eq heq.symm)
      rw [hmin]
      refine Prod.ext ?_ rfl
      simp only
      rw [List.append_assoc, List.singleton_append]
    · rw [hstep, if_neg (by omega), if_neg (by omega)]
      rw [scanmin_fold_char count rest b m hb]
      have hmin : min m (count s) = m := Nat.min_eq_left (Nat.le_of_lt hgt)
      rw [hmin]
      have hmf := minfold_le_init count rest m
      refine Prod.ext ?_ rfl
      simp only
      rw [List.filter_append, List.filter_append, List.filter_cons]
      have hnot : ¬ (count s = rest.foldl (fun a s => min a (count s)) m) := by omega
      simp [hnot]

theorem min_conflict_char (L : List LIv) :
    ∃ m, min_conflict_by_labels L
        = (gridStarts.filter (fun st => labeledCount L st = m), some m)
      ∧ (∀ st ∈ gridStarts, m ≤ labeledCount L st)
      ∧ (∃ st ∈ gridStarts, labeledCount L st = m) := by
  rcases hg : gridStarts with _ | ⟨s0, rest⟩
  · exact absurd hg (by decide)
  · unfold min_conflict_by_labels
    rw [hg, List.foldl_cons]
    have hstep : scanMinStep (labeledCount L) ([], none) s0
        = ([s0], some (labeledCount L s0)) := rfl
    rw [hstep,
      scanmin_fold_char (labeledCount L) rest [s0] (labeledCount L s0)
        (fun x hx => by rw [List.mem_singleton.mp hx])]
    refine ⟨rest.foldl (fun a s => min a (labeledCount L s)) (labeledCount L s0),
      by rw [List.singleton_append], fun st hst => ?_, ?_⟩
    · rcases List.mem_cons.mp hst with rfl | hst'
      · exact minfold_le_init _ _ _
      · exact minfold_le_mem _ _ _ _ hst'
    · rcases minfold_achieved (labeledCount L) rest (labeledCount L s0) with h | ⟨s', hs', h⟩
      · exact ⟨s0, List.mem_cons_self _ _, h.symm⟩
      · exact ⟨s', List.mem_cons_of_mem _ hs', h⟩

theorem scanStep_some_eq (day : List Iv) (free : List Iv) (best : List Nat) (m st : Nat) :
    scanStep day (free, best, some m) st
      = if mergedCount day st < m then
          ((if mergedCount day st = 0 then free ++ [(st, st + BLOCK_LEN)] else free),
            [st], some (mergedCount day st))
        else if mergedCount day st = m then
          ((if mergedCount day st = 0 then free ++ [(st, st + BLOCK_LEN)] else free),
            best ++ [st], some m)
        else ((if mergedCount day st = 0 then free ++ [(st, st + BLOCK_LEN)] else free),
            best, some m) := rfl

theorem scanStep_isSome (day : List Iv) (acc : List Iv × List Nat × Option Nat) (st : Nat) :
    ((scanStep day acc st).2.2).isSome := by
  rcases acc with ⟨free, best, _ | m⟩
  · rfl
  · rw [scanStep_some_eq]
    split_ifs <;> rfl

theorem scanStep_free_inv (day : List Iv) (acc : List Iv × List Nat × Option Nat) (st : Nat)
    (h : acc.2.2 = some 0 → acc.1 ≠ []) :
    (scanStep day acc st).2.2 = some 0 → (scanStep day acc st).1 ≠ [] := by
  rcases acc with ⟨free, best, _ | m⟩
  · intro hsome
    have hcnt : mergedCount day st = 0 := Option.some.inj hsome
    show ¬ (if mergedCount day st = 0 then free ++ [(st, st + BLOCK_LEN)] else free) = []
    rw [if_pos hcnt]
    intro hnil
    simp at hnil
  · rw [scanStep_some_eq]
    by_cases hcnt : mergedCount day st = 0
    · intro _
      simp only [hcnt]
      split_ifs <;> simp
    · rw [if_neg hcnt]
      split_ifs with h1 h2
      · exact fun hsome => absurd (Option.some.inj hsome) hcnt
      · exact fun hsome => absurd (h2.trans (Option.some.inj hsome)) hcnt
      · intro hsome
        exact h (by rw [show m = 0 from Option.some.inj hsome])

theorem scan_isSome (day : List Iv) : ((free_and_min_conflict day).2.2).isSome := by
  unfold free_and_min_conflict
  rcases hg : gridStarts with _ | ⟨s0, rest⟩
  · exact absurd hg (by decide)
  · rw [List.foldl_cons]
    exact foldl_preserve (fun acc => (acc.2.2).isSome) _
      (fun a b _ => scanStep_isSome day a b) rest _ (scanStep_isSome day _ s0)

theorem scan_free_inv (day : List Iv) :
    (free_and_min_conflict day).2.2 = some 0 → (free_and_min_conflict day).1 ≠ [] := by
  unfold free_and_min_conflict
  exact foldl_preserve (fun acc => acc.2.2 = some 0 → acc.1 ≠ []) _
    (fun a b h => scanStep_free_inv day a b h) gridStarts
    (([], [], none) : List Iv × List Nat × Option Nat)
    (fun h0 => Option.noConfusion h0)

/-- C5: for every interval list given to the day scan, if the returned free
list is empty then the returned minimum overlap count is `some m` with
`m ≥ 1`. -/
theorem no_free_blocks_min_conflict_pos (day : List Iv)
    (h : (free_and_min_conflict day).1 = []) :
    ∃ m, (free_and_min_conflict day).2.2 = some m ∧ 1 ≤ m := by
  obtain ⟨m, hm⟩ := Option.isSome_iff_exists.mp (scan_isSome day)
  refine ⟨m, hm, ?_⟩
  by_contra hlt
  have hm0 : m = 0 := by omega
  exact scan_free_inv day (hm0 ▸ hm) h

/-- Witness for C5 at the fully occupied day `[(0, 1200)]`. -/
theorem no_free_blocks_min_conflict_pos_witness :
    (free_and_min_conflict [(0, 1200)]).1 = []
    ∧ ∃ m, (free_and_min_conflict [(0, 1200)]).2.2 = some m ∧ 1 ≤ m :=
  ⟨by decide, no_free_blocks_min_conflict_pos [(0, 1200)] (by decide)⟩

/-- C10: `min_conflict_by_labels` always returns a non-empty best-starts list
(the candidate grid holds at least one start) together with a finite `some`
minimum, so `main`'s branch skipping a day on an empty best-starts list is
unreachable. -/
theorem labeled_scan_always_nonempty (L : List LIv) :
    gridStarts ≠ [] ∧ ∃ b m, min_conflict_by_labels L = (b, some m) ∧ b ≠ [] := by
  obtain ⟨m, heq, _, st, hst, hm⟩ := min_conflict_char L
  refine ⟨by decide, _, m, heq, fun hnil => ?_⟩
  have hmem : st ∈ gridStarts.filter (fun st => decide (labeledCount L st = m)) :=
    List.mem_filter.mpr ⟨hst, by simp [hm]⟩
  rw [hnil] at hmem
  exact List.not_mem_nil st hmem

/-- Witness for C10 at the empty labeled list. -/
theorem labeled_scan_always_nonempty_witness :
    gridStarts ≠ []
    ∧ ∃ b m, min_conflict_by_labels ([] : List LIv) = (b, some m) ∧ b ≠ [] :=
  labeled_scan_always_nonempty []

/-- C3: `min_conflict_by_labels` scans the fixed grid and, at each start,
counts one overlap per labeled interval with no merging — the returned pair is
the list of starts whose labeled count attains the minimum, with that minimum.
On the concrete two-class day `exDay`, every start overlaps both classes, so
the labeled count is 2 and the labeled minimum is 2, while the merged grid
collapses the classes and the merged scan reports minimum 1 (and no free
blocks); `offenders_for_start` likewise names both classes from the labeled
entries. -/
theorem min_conflict_counts_per_label :
    (∀ (L : List LIv), ∃ m,
        min_conflict_by_labels L
          = (gridStarts.filter (fun st => labeledCount L st = m), some m)
        ∧ ∀ st ∈ gridStarts, m ≤ labeledCount L st)
    ∧ labeledCount exDay 480 = 2
    ∧ mergedCount (merge (exDay.map unlabel)) 480 = 1
    ∧ offenders_for_start 480 exDay = [("AAAA 111", 0, 1200), ("BBBB 222", 560, 990)]
    ∧ min_conflict_by_labels exDay = (gridStarts, some 2)
    ∧ free_and_min_conflict (merge (exDay.map unlabel)) = ([], gridStarts, some 1) := by
  refine ⟨fun L => ?_, by decide, by decide, by decide, by decide, by decide⟩
  obtain ⟨m, heq, hle, _⟩ := min_conflict_char L
  exact ⟨m, heq, hle⟩

/-- Witness for C3's universally quantified part, at the two-class day. -/
theorem min_conflict_counts_per_label_witness :
    ∃ m, min_conflict_by_labels exDay
        = (gridStarts.filter (fun st => labeledCount exDay st = m), some m)
      ∧ ∀ st ∈ gridStarts, m ≤ labeledCount exDay st :=
  min_conflict_counts_per_label.1 exDay

-- ═════════════ scoring is read-only (C2) ═════════════════════════════════

/-- C2: the scoring pass threads the live grid through every
`windows_after_add` call and hands it back unchanged, and each candidate's
score equals the score computed against the grid as it was before the pass —
scoring one candidate cannot affect another's score. -/
theorem scoring_read_only (grid : Grid) (cands : List (String × Sec)) :
    (scorePass grid cands).1 = grid
    ∧ (scorePass grid cands).2 = cands.map (fun p => windows_after_add p.2 grid) := by
  induction cands with
  | nil => exact ⟨rfl, rfl⟩
  | cons p rest ih =>
    refine ⟨?_, ?_⟩ <;> simp [scorePass, windows_after_add_call, ih.1, ih.2]

-- ═════════════ the end-to-end scenarios (C8, C9) ═════════════════════════

/-- C8 counterexample: with "ABCD 101" occupying Monday 08:00–09:40, the first
fully clear 100-minute block after it starts at 09:40 (minute 580), because
`overlaps` treats intervals as half-open — so the first free block is not
09:45–11:25 (start 585). -/
theorem scenario_A_first_slot_counterexample :
    (free_and_min_conflict (getDay (seedGrids [secA]).1 'M')).1.head? = some (580, 680)
    ∧ (free_and_min_conflict (getDay (seedGrids [secA]).1 'M')).1.head? ≠ some (585, 685)
    ∧ overlapsB (580, 680) (480, 580) = false := by
  refine ⟨by decide, ?_, by decide⟩
  intro h
  rw [show (free_and_min_conflict (getDay (seedGrids [secA]).1 'M')).1.head?
      = some (580, 680) from by decide] at h
  simp at h

/-- C8 (amended): seeding "ABCD 101" on Monday 08:00–09:40, the Monday scan's
free blocks include 09:45–11:25, the first fully clear block after the
occupied one is 09:40–11:20, and on Tuesday through Friday every candidate
start is free. -/
theorem scenario_A_free_windows :
    ((585, 685) : Iv) ∈ (free_and_min_conflict (getDay (seedGrids [secA]).1 'M')).1
    ∧ (free_and_min_conflict (getDay (seedGrids [secA]).1 'M')).1.head? = some (580, 680)
    ∧ (free_and_min_conflict ((seedGrids [secA]).1.t)).1
        = gridStarts.map (fun st => (st, st + BLOCK_LEN))
    ∧ (free_and_min_conflict ((seedGrids [secA]).1.w)).1
        = gridStarts.map (fun st => (st, st + BLOCK_LEN))
    ∧ (free_and_min_conflict ((seedGrids [secA]).1.r)).1
        = gridStarts.map (fun st => (st, st + BLOCK_LEN))
    ∧ (free_and_min_conflict ((seedGrids [secA]).1.f)).1
        = gridStarts.map (fun st => (st, st + BLOCK_LEN)) := by
  decide

/-- C9 counterexample: the two "WXYZ 305" candidates do not tie — the 08:00
section leaves 475 free blocks, the 14:00 section only 456. -/
theorem scenario_B_scores_counterexample :
    windows_after_add secB1 (seedGrids []).1 ≠ windows_after_add secB2 (seedGrids []).1
    ∧ windows_after_add secB1 (seedGrids []).1 = 475
    ∧ windows_after_add secB2 (seedGrids []).1 = 456 := by
  refine ⟨?_, by decide, by decide⟩
  intro h
  rw [show windows_after_add secB1 (seedGrids []).1 = 475 from by decide,
    show windows_after_add secB2 (seedGrids []).1 = 456 from by decide] at h
  simp at h

/-- C9 (amended): with no mandatory courses, the greedy run on the two
"WXYZ 305" sections scores them 475 and 456 and commits the 08:00 section
because its score is strictly higher — the start-time tie-break is not
exercised. -/
theorem scenario_B_selected :
    windows_after_add secB1 (seedGrids []).1 = 475
    ∧ windows_after_add secB2 (seedGrids []).1 = 456
    ∧ selectBest (seedGrids []).1 (flattenOptions [("WXYZ 305", [secB1, secB2])])
        = some ("WXYZ 305", secB1, 475)
    ∧ (runGreedy [("WXYZ 305", [secB1, secB2])] (seedGrids [])).1
        = [("WXYZ 305", secB1)] := by
  decide

-- ═════════════ the greedy selection rule (C1) ════════════════════════════

theorem selectBest_fold_spec (grid : Grid) :
    ∀ (cands : List (String × Sec)) (acc : Option (String × Sec × Nat)),
      (∀ q, acc = some q → q.2.2 = windows_after_add q.2.1 grid) →
      ∀ (bc : String) (bs : Sec) (bsc : Nat),
      cands.foldl (selectStep grid) acc = some (bc, bs, bsc) →
      (acc = some (bc, bs, bsc) ∨ (bc, bs) ∈ cands)
      ∧ bsc = windows_after_add bs grid
      ∧ (∀ p ∈ cands, windows_after_add p.2 grid ≤ bsc
          ∧ (windows_after_add p.2 grid = bsc → bs.start ≤ p.2.start))
      ∧ (∀ q, acc = some q → q.2.2 ≤ bsc ∧ (q.2.2 = bsc → bs.start ≤ q.2.1.start))
  | [], acc, hQ, bc, bs, bsc, h => by
    simp only [List.foldl_nil] at h
    refine ⟨Or.inl h, hQ _ h, fun p hp => absurd hp (List.not_mem_nil p), fun q hq => ?_⟩
    rw [h] at hq
    cases Option.some.inj hq
    exact ⟨Nat.le_refl _, fun _ => Nat.le_refl _⟩
  | p :: rest, acc, hQ, bc, bs, bsc, h => by
    rw [List.foldl_cons] at h
    rcases hacc : acc with _ | ⟨a0, s0, sc0⟩
    · subst hacc
      have hstep : selectStep grid none p = some (p.1, p.2, windows_after_add p.2 grid) := rfl
      rw [hstep] at h
      obtain ⟨hmem, hscore, hrest, haccb⟩ :=
        selectBest_fold_spec grid rest (some (p.1, p.2, windows_after_add p.2 grid))
          (fun q hq => by cases Option.some.inj hq; rfl) bc bs bsc h
      refine ⟨?_, hscore, ?_, fun q hq => Option.noConfusion hq⟩
      · rcases hmem with heq | hmem'
        · simp only [Option.some.injEq, Prod.mk.injEq] at heq
          obtain ⟨rfl, rfl, rfl⟩ := heq
          exact Or.inr (List.mem_cons_self _ _)
        · exact Or.inr (List.mem_cons_of_mem _ hmem')
      · intro q hq
        rcases List.mem_cons.mp hq with rfl | hq'
        · exact haccb _ rfl
        · exact hrest q hq'
    · subst hacc
      have hsc0 : sc0 = windows_after_add s0 grid := hQ (a0, s0, sc0) rfl
      have hstep0 : selectStep grid (some (a0, s0, sc0)) p
          = (if sc0 < windows_after_add p.2 grid then
              some (p.1, p.2, windows_after_add p.2 grid)
            else if windows_after_add p.2 grid = sc0 ∧ p.2.start < s0.start then
              some (p.1, p.2, sc0)
            else some (a0, s0, sc0)) := rfl
      by_cases h1 : sc0 < windows_after_add p.2 grid
      · have hstep : selectStep grid (some (a0, s0, sc0)) p
            = some (p.1, p.2, windows_after_add p.2 grid) := by
          rw [hstep0, if_pos h1]
        rw [hstep] at h
        obtain ⟨hmem, hscore, hrest, haccb⟩ :=
          selectBest_fold_spec grid rest (some (p.1, p.2, windows_after_add p.2 grid))
            (fun q hq => by cases Option.some.inj hq; rfl) bc bs bsc h
        have hpb := haccb _ rfl
        have hp1 : windows_after_add p.2 grid ≤ bsc := hpb.1
        refine ⟨?_, hscore, ?_, ?_⟩
        · rcases hmem with heq | hmem'
          · simp only [Option.some.injEq, Prod.mk.injEq] at heq
            obtain ⟨rfl, rfl, rfl⟩ := heq
            exact Or.inr (List.mem_cons_self _ _)
          · exact Or.inr (List.mem_cons_of_mem _ hmem')
        · intro q hq
          rcases List.mem_cons.mp hq with rfl | hq'
          · exact hpb
          · exact hrest q hq'
        · intro q hq
          cases Option.some.inj hq
          refine ⟨?_, fun heq => ?_⟩
          · show sc0 ≤ bsc
            omega
          · exfalso
            have heq' : sc0 = bsc := heq
            omega
      · by_cases h2 : windows_after_add p.2 grid = sc0 ∧ p.2.start < s0.start
        · have hstep : selectStep grid (some (a0, s0, sc0)) p = some (p.1, p.2, sc0) := by
            rw [hstep0, if_neg h1, if_pos h2]
          rw [hstep] at h
          obtain ⟨hmem, hscore, hrest, haccb⟩ :=
            selectBest_fold_spec grid rest (some (p.1, p.2, sc0))
              (fun q hq => by cases Option.some.inj hq; exact h2.1.symm) bc bs bsc h
          have hpb := haccb _ rfl
          have hp1 : sc0 ≤ bsc := hpb.1
          have hp2 : sc0 = bsc → bs.start ≤ p.2.start := hpb.2
          refine ⟨?_, hscore, ?_, ?_⟩
          · rcases hmem with heq | hmem'
            · simp only [Option.some.injEq, Prod.mk.injEq] at heq
              obtain ⟨rfl, rfl, rfl⟩ := heq
              exact Or.inr (List.mem_cons_self _ _)
            · exact Or.inr (List.mem_cons_of_mem _ hmem')
          · intro q hq
            rcases List.mem_cons.mp hq with rfl | hq'
            · refine ⟨?_, fun heq => ?_⟩
              · rw [h2.1]
                exact hp1
              · exact hp2 (h2.1.symm.trans heq)
            · exact hrest q hq'
          · intro q hq
            cases Option.some.inj hq
            refine ⟨hp1, fun heq => ?_⟩
            have hb1 : bs.start ≤ p.2.start := hp2 heq
            have hlt := h2.2
            show bs.start ≤ s0.start
            omega
        · have hstep : selectStep grid (some (a0, s0, sc0)) p = some (a0, s0, sc0) := by
            rw [hstep0, if_neg h1, if_neg h2]
          rw [hstep] at h
          obtain ⟨hmem, hscore, hrest, haccb⟩ :=
            selectBest_fold_spec grid rest (some (a0, s0, sc0))
              (fun q hq => by cases Option.some.inj hq; exact hsc0) bc bs bsc h
          have hab := haccb _ rfl
          have ha1 : sc0 ≤ bsc := hab.1
          have ha2 : sc0 = bsc → bs.start ≤ s0.start := hab.2
          refine ⟨?_, hscore, ?_, fun q hq => by cases Option.some.inj hq; exact hab⟩
          · rcases hmem with heq | hmem'
            · exact Or.inl heq
            · exact Or.inr (List.mem_cons_of_mem _ hmem')
          · intro q hq
            rcases List.mem_cons.mp hq with rfl | hq'
            · have hle : windows_after_add q.2 grid ≤ sc0 := by omega
              refine ⟨by omega, fun heq => ?_⟩
              have hsceq : windows_after_add q.2 grid = sc0 := by omega
              have hnlt : ¬ q.2.start < s0.start := fun hl => h2 ⟨hsceq, hl⟩
              have hbss : bs.start ≤ s0.start := ha2 (by omega)
              omega
            · exact hrest q hq'

/-- C1: in one iteration of the greedy selection loop, the committed candidate
is one of the scanned candidates, its recorded score is its own hypothetical
free-window score, no candidate scores higher, and any candidate attaining
the best score starts no earlier than the selected one — so on a score tie
the strictly earlier raw start wins, even across courses. -/
theorem greedy_selection_rule (grid : Grid) (cands : List (String × Sec))
    (bc : String) (bs : Sec) (bsc : Nat)
    (h : selectBest grid cands = some (bc, bs, bsc)) :
    (bc, bs) ∈ cands
    ∧ bsc = windows_after_add bs grid
    ∧ ∀ p ∈ cands, windows_after_add p.2 grid ≤ bsc
        ∧ (windows_after_add p.2 grid = bsc → bs.start ≤ p.2.start) := by
  obtain ⟨hmem, hsc, hall, _⟩ :=
    selectBest_fold_spec grid cands none (fun q hq => Option.noConfusion hq) bc bs bsc h
  rcases hmem with heq | hmem'
  · exact Option.noConfusion heq
  · exact ⟨hmem', hsc, hall⟩

/-- Witness for C1 on two tied candidates (both score 495) with different
start minutes, the later-starting one listed first: the selector returns the
earlier start. -/
theorem greedy_selection_rule_witness :
    (("TIEB 102", (⟨['T'], 0, 100, "TIEB 102"⟩ : Sec))
        ∈ [("TIEA 101", (⟨['M'], 1080, 100, "TIEA 101"⟩ : Sec)),
           ("TIEB 102", (⟨['T'], 0, 100, "TIEB 102"⟩ : Sec))])
    ∧ 495 = windows_after_add ⟨['T'], 0, 100, "TIEB 102"⟩ (seedGrids []).1
    ∧ ∀ p ∈ [("TIEA 101", (⟨['M'], 1080, 100, "TIEA 101"⟩ : Sec)),
           ("TIEB 102", (⟨['T'], 0, 100, "TIEB 102"⟩ : Sec))],
        windows_after_add p.2 (seedGrids []).1 ≤ 495
        ∧ (windows_after_add p.2 (seedGrids []).1 = 495
            → (⟨['T'], 0, 100, "TIEB 102"⟩ : Sec).start ≤ p.2.start) :=
  greedy_selection_rule (seedGrids []).1
    [("TIEA 101", ⟨['M'], 1080, 100, "TIEA 101"⟩),
     ("TIEB 102", ⟨['T'], 0, 100, "TIEB 102"⟩)]
    "TIEB 102" ⟨['T'], 0, 100, "TIEB 102"⟩ 495 (by decide)

-- ═════════════ validation error handling (C7) ════════════════════════════

/-- C7: a record failing any validation rule is rejected: `add_section`
returns failure, reports the message of the first violated rule (checked in
source order: course code, days, start time, duration), leaves the sections
map completely unchanged, and the ingestion loop still processes all later
records exactly as if the bad record had not been there. -/
theorem add_section_rejects_invalid (parts : Rec) (s : SecMap) (rest : List Rec)
    (e : String) (h : (add_section parts s).err = some e) :
    (add_section parts s).ok = false
    ∧ (add_section parts s).sections = s
    ∧ processAll (parts :: rest) s = processAll rest s
    ∧ ((crsRe parts.1 && numRe parts.2.1) = false →
        e = "course code malformed (e.g. MEEN 221)")
    ∧ ((crsRe parts.1 && numRe parts.2.1) = true →
        daysRe parts.2.2.1.toUpper = false →
        e = "days must be combo of MTWRF")
    ∧ ((crsRe parts.1 && numRe parts.2.1) = true →
        daysRe parts.2.2.1.toUpper = true →
        timeRe parts.2.2.2.1 = false →
        e = "start must be HH:MM 24-hour")
    ∧ ((crsRe parts.1 && numRe parts.2.1) = true →
        daysRe parts.2.2.1.toUpper = true →
        timeRe parts.2.2.2.1 = true →
        (isDigits parts.2.2.2.2 && decide (0 < strToNat parts.2.2.2.2)) = false →
        e = "duration must be positive int") := by
  have hfold : processAll (parts :: rest) s
      = processAll rest (add_section parts s).sections := rfl
  rw [hfold]
  simp only [add_section] at h ⊢
  split_ifs at h ⊢ with h1 h2 h3 h4
  · have he : e = "course code malformed (e.g. MEEN 221)" := (Option.some.inj h).symm
    subst he
    refine ⟨rfl, rfl, rfl, fun _ => rfl, ?_, ?_, ?_⟩
    · intro hc _
      rw [hc] at h1
      simp at h1
    · intro hc _ _
      rw [hc] at h1
      simp at h1
    · intro hc _ _ _
      rw [hc] at h1
      simp at h1
  · have he : e = "days must be combo of MTWRF" := (Option.some.inj h).symm
    subst he
    refine ⟨rfl, rfl, rfl, ?_, fun _ _ => rfl, ?_, ?_⟩
    · intro hc
      exact absurd (by rw [hc]; rfl) h1
    · intro _ hd _
      rw [hd] at h2
      simp at h2
    · intro _ hd _ _
      rw [hd] at h2
      simp at h2
  · have he : e = "start must be HH:MM 24-hour" := (Option.some.inj h).symm
    subst he
    refine ⟨rfl, rfl, rfl, ?_, ?_, fun _ _ _ => rfl, ?_⟩
    · intro hc
      exact absurd (by rw [hc]; rfl) h1
    · intro _ hd
      exact absurd (by rw [hd]; rfl) h2
    · intro _ _ ht _
      rw [ht] at h3
      simp at h3
  · have he : e = "duration must be positive int" := (Option.some.inj h).symm
    subst he
    refine ⟨rfl, rfl, rfl, ?_, ?_, ?_, fun _ _ _ _ => rfl⟩
    · intro hc
      exact absurd (by rw [hc]; rfl) h1
    · intro _ hd
      exact absurd (by rw [hd]; rfl) h2
    · intro _ _ ht
      exact absurd (by rw [ht]; rfl) h3

/-- Witness for C7 at the spec's invalid record (lowercase subject). -/
theorem add_section_rejects_invalid_witness :
    (add_section ("ab", "221", "MW", "09:00", "100") []).err
        = some "course code malformed (e.g. MEEN 221)"
    ∧ ((add_section ("ab", "221", "MW", "09:00", "100") []).ok = false
      ∧ (add_section ("ab", "221", "MW", "09:00", "100") []).sections = []
      ∧ processAll [("ab", "221", "MW", "09:00", "100"),
          ("ABCD", "221", "MW", "09:00", "100")] []
          = processAll [("ABCD", "221", "MW", "09:00", "100")] []
      ∧ ((crsRe "ab" && numRe "221") = false →
          "course code malformed (e.g. MEEN 221)"
            = "course code malformed (e.g. MEEN 221)")
      ∧ ((crsRe "ab" && numRe "221") = true →
          daysRe ("MW" : String).toUpper = false →
          "course code malformed (e.g. MEEN 221)" = "days must be combo of MTWRF")
      ∧ ((crsRe "ab" && numRe "221") = true →
          daysRe ("MW" : String).toUpper = true →
          timeRe "09:00" = false →
          "course code malformed (e.g. MEEN 221)" = "start must be HH:MM 24-hour")
      ∧ ((crsRe "ab" && numRe "221") = true →
          daysRe ("MW" : String).toUpper = true →
          timeRe "09:00" = true →
          (isDigits "100" && decide (0 < strToNat "100")) = false →
          "course code malformed (e.g. MEEN 221)" = "duration must be positive int")) :=
  ⟨by decide,
    add_section_rejects_invalid ("ab", "221", "MW", "09:00", "100") []
      [("ABCD", "221", "MW", "09:00", "100")]
      "course code malformed (e.g. MEEN 221)" (by decide)⟩

end ZLP
